import Mathlib

/-!
Verification of the nprint-rs header-encoding engine.

The Rust source is shallowly embedded: raw packets are `List Nat` (byte
values), the ternary `f32` cells (always `-1.0`, `0.0` or `1.0` in the
source) are `Int`, and every per-protocol dissector is a Lean function
mirroring the corresponding `new` constructor line by line.  The external
`pnet` accessors used by the source (packet length checks and slice
extraction for Ethernet/VLAN/IPv4/TCP/UDP) are embedded by their byte-level
behaviour: a parse succeeds exactly when the buffer holds the fixed header,
and raw option slices are bounded by the buffer length.
-/

namespace NprintRs

/-- Extracts bit `i` of byte `b`, the `(b >> i) & 1` of the source. -/
def bit (b i : Nat) : Int := ((b >>> i) % 2 : Nat)

/-- Reads byte `i` of a packet.  The `% 256` makes the `u8` machine-integer
range of the source's slices explicit.  The source indexes slices directly;
all index uses below stay within the length checked by the surrounding
parse, so the default value is never exercised on the source's paths. -/
def byteAt (p : List Nat) (i : Nat) : Nat := p.getD i 0 % 256

/-- Embeds `get_options_bits` (identical in `ipv4.rs` and `tcp.rs`): each
option byte is unpacked MSB first, then `-1` is pushed while the length is
below 320.  Note the source's `while` loop never removes elements, so an
input longer than 40 bytes yields more than 320 values. -/
def get_options_bits (options : List Nat) : List Int :=
  let data := options.flatMap (fun o => (List.range 8).reverse.map (fun i => bit o i))
  data ++ List.replicate (320 - data.length) (-1)

/-- Embeds `Ipv4Header::default`: 480 sentinel values. -/
def Ipv4Header.default : List Int := List.replicate 480 (-1)

/-- Embeds pnet's `Ipv4Packet::get_options_raw`: the bytes after the fixed
20-byte header up to the declared header length (`IHL * 4`), clipped to the
buffer. -/
def ipv4_options_raw (packet : List Nat) : List Nat :=
  (packet.drop 20).take ((byteAt packet 0 % 16) * 4 - 20)

/-- Embeds `Ipv4Header::new`: pnet's `Ipv4Packet::new` succeeds exactly when
the buffer holds the 20 fixed bytes, and then each field is unpacked bit by
bit in the order of the source's `extend` calls; otherwise the default. -/
def Ipv4Header.new (packet : List Nat) : List Int :=
  if 20 ≤ packet.length then
    let option := ipv4_options_raw packet
    ((List.range 4).reverse.map (fun i => bit (byteAt packet 0) (4 + i)))
    ++ ((List.range 4).reverse.map (fun i => bit (byteAt packet 0) i))
    ++ ((List.range 6).reverse.map (fun i => bit (byteAt packet 1) (2 + i)))
    ++ ((List.range 2).reverse.map (fun i => bit (byteAt packet 1) i))
    ++ ((List.range 16).map (fun i => bit (byteAt packet (2 + i / 8)) (7 - i % 8)))
    ++ ((List.range 16).map (fun i => bit (byteAt packet (4 + i / 8)) (7 - i % 8)))
    ++ ((List.range 3).reverse.map (fun i => bit (byteAt packet 6) (5 + i)))
    ++ ((List.range 13).map (fun i =>
          if i < 5 then bit (byteAt packet 6) (4 - i)
          else bit (byteAt packet 7) (7 - (i - 5))))
    ++ ((List.range 8).reverse.map (fun i => bit (byteAt packet 8) i))
    ++ ((List.range 8).reverse.map (fun i => bit (byteAt packet 9) i))
    ++ ((List.range 16).map (fun i => bit (byteAt packet (10 + i / 8)) (7 - i % 8)))
    ++ ((List.range 32).map (fun i => bit (byteAt packet (12 + i / 8)) (7 - i % 8)))
    ++ ((List.range 32).map (fun i => bit (byteAt packet (16 + i / 8)) (7 - i % 8)))
    ++ get_options_bits option
  else Ipv4Header.default

/-- Embeds `TcpHeader::default`: 480 sentinel values. -/
def TcpHeader.default : List Int := List.replicate 480 (-1)

/-- Embeds pnet's `TcpPacket::get_options_raw`: bytes after the fixed
20-byte header up to the declared data offset, clipped to the buffer. -/
def tcp_options_raw (packet : List Nat) : List Nat :=
  let doff := byteAt packet 12 / 16
  (packet.drop 20).take (if 5 < doff then doff * 4 - 20 else 0)

/-- Embeds `TcpHeader::new`, field by field as in the source. -/
def TcpHeader.new (packet : List Nat) : List Int :=
  if 20 ≤ packet.length then
    let option := tcp_options_raw packet
    ((List.range 16).map (fun i => bit (byteAt packet (i / 8)) (7 - i % 8)))
    ++ ((List.range 16).map (fun i => bit (byteAt packet (2 + i / 8)) (7 - i % 8)))
    ++ ((List.range 32).map (fun i => bit (byteAt packet (4 + i / 8)) (7 - i % 8)))
    ++ ((List.range 32).map (fun i => bit (byteAt packet (8 + i / 8)) (7 - i % 8)))
    ++ ((List.range 4).reverse.map (fun i => bit (byteAt packet 12) (4 + i)))
    ++ ((List.range 4).reverse.map (fun i => bit (byteAt packet 12) i))
    ++ ((List.range 8).reverse.map (fun i => bit (byteAt packet 13) i))
    ++ ((List.range 16).map (fun i => bit (byteAt packet (14 + i / 8)) (7 - i % 8)))
    ++ ((List.range 16).map (fun i => bit (byteAt packet (16 + i / 8)) (7 - i % 8)))
    ++ ((List.range 16).map (fun i => bit (byteAt packet (18 + i / 8)) (7 - i % 8)))
    ++ get_options_bits option
  else TcpHeader.default

/-- Embeds `UdpHeader::default`: 64 sentinel values. -/
def UdpHeader.default : List Int := List.replicate 64 (-1)

/-- Embeds `UdpHeader::new`: pnet's `UdpPacket::new` succeeds exactly when
the buffer holds the 8 fixed bytes. -/
def UdpHeader.new (packet : List Nat) : List Int :=
  if 8 ≤ packet.length then
    ((List.range 16).map (fun i => bit (byteAt packet (i / 8)) (7 - i % 8)))
    ++ ((List.range 16).map (fun i => bit (byteAt packet (2 + i / 8)) (7 - i % 8)))
    ++ ((List.range 16).map (fun i => bit (byteAt packet (4 + i / 8)) (7 - i % 8)))
    ++ ((List.range 16).map (fun i => bit (byteAt packet (6 + i / 8)) (7 - i % 8)))
  else UdpHeader.default

/-- Builds the indexed field-name list shared by the three `get_headers`
implementations (`flat_map` over `(name, bits)` pairs). -/
def mkFieldNames (fields : List (String × Nat)) : List String :=
  fields.flatMap (fun f => (List.range f.2).map (fun i => f.1 ++ "_" ++ toString i))

/-- Embeds `Ipv4Header::get_headers`. -/
def Ipv4Header.get_headers : List String :=
  mkFieldNames
    [("ipv4_ver", 4), ("ipv4_hl", 4), ("ipv4_tos", 8), ("ipv4_tl", 16),
     ("ipv4_id", 16), ("ipv4_rbit", 1), ("ipv4_dfbit", 1), ("ipv4_mfbit", 1),
     ("ipv4_foff", 13), ("ipv4_ttl", 8), ("ipv4_proto", 8), ("ipv4_cksum", 16),
     ("ipv4_src", 32), ("ipv4_dst", 32), ("ipv4_opt", 320)]

/-- Embeds `TcpHeader::get_headers`. -/
def TcpHeader.get_headers : List String :=
  mkFieldNames
    [("tcp_sprt", 16), ("tcp_dprt", 16), ("tcp_seq", 32), ("tcp_ackn", 32),
     ("tcp_doff", 4), ("tcp_res", 3), ("tcp_ns", 1), ("tcp_cwr", 1),
     ("tcp_ece", 1), ("tcp_urg", 1), ("tcp_ackf", 1), ("tcp_psh", 1),
     ("tcp_rst", 1), ("tcp_syn", 1), ("tcp_fin", 1), ("tcp_wsize", 16),
     ("tcp_cksum", 16), ("tcp_urp", 16), ("tcp_opt", 320)]

/-- Embeds `UdpHeader::get_headers`. -/
def UdpHeader.get_headers : List String :=
  mkFieldNames
    [("udp_sport", 16), ("udp_dport", 16), ("udp_len", 16), ("udp_cksum", 16)]

/-- Embeds `ProtocolType`. -/
inductive ProtocolType
  | Ipv4
  | Tcp
  | Udp
deriving DecidableEq, Repr

/-- Tags a stored per-protocol bit vector with the protocol that produced
it, standing in for the source's boxed `dyn PacketHeader` values. -/
inductive HeaderData
  | ipv4 (data : List Int)
  | tcp (data : List Int)
  | udp (data : List Int)
deriving DecidableEq, Repr

/-- Embeds the `get_data` accessor of each header type. -/
def HeaderData.get_data : HeaderData → List Int
  | .ipv4 d => d
  | .tcp d => d
  | .udp d => d

/-- Embeds `Ipv4Header::remove` / `TcpHeader::remove` (identical bodies):
`data[start..=end].fill(0.)`.  The source would panic when `endI` is out of
bounds; every call site below fills inside the 480-value invariant, where
this total version agrees with the source. -/
def removeRange (d : List Int) (start endI : Nat) : List Int :=
  d.mapIdx (fun i x => if start ≤ i ∧ i ≤ endI then 0 else x)

/-- Embeds the per-header `anonymize` dispatch done by `Nprint::anonymize`:
`Ipv4Header::anonymize` removes `[96,127]` and `[128,159]`,
`TcpHeader::anonymize` removes `[0,15]` and `[16,31]`.
Modelled from the spec: `UdpHeader` has no `anonymize` implementation
anywhere in the source, and the spec states that no UDP bits are
anonymized, so the UDP case is the identity. -/
def HeaderData.anonymize : HeaderData → HeaderData
  | .ipv4 d => .ipv4 (removeRange (removeRange d 96 127) 128 159)
  | .tcp d => .tcp (removeRange (removeRange d 0 15) 16 31)
  | .udp d => .udp d

/-- Embeds the `Headers` struct: the ordered per-protocol vectors of one
packet. -/
structure Headers where
  data : List HeaderData
deriving DecidableEq, Repr

/-- Strips the Ethernet header and at most one VLAN tag, returning the
resulting ethertype and inner payload, as in the first phase of
`Headers::new` (pnet ethertype accessors read the big-endian bytes 12-13 of
the frame and 2-3 of the VLAN tag). -/
def ether_inner (packet : List Nat) : Nat × List Nat :=
  let ethertype0 := 256 * byteAt packet 12 + byteAt packet 13
  let payload0 := packet.drop 14
  if ethertype0 = 0x8100 then
    if 4 ≤ payload0.length then
      (256 * byteAt payload0 2 + byteAt payload0 3, payload0.drop 4)
    else (ethertype0, payload0)
  else (ethertype0, payload0)

/-- Embeds pnet's `Ipv4Packet::payload`: the bytes past the declared header
length (`IHL * 4`, saturating at the fixed 20). -/
def ipv4_payload (p : List Nat) : List Nat :=
  p.drop (20 + ((byteAt p 0 % 16) * 4 - 20))

/-- Embeds the link-layer demultiplexing phase of `Headers::new`: Ethernet
parse (14-byte minimum), optional single VLAN unwrap (4-byte minimum,
ethertype `0x8100`), then IPv4 (`0x0800`, 20-byte minimum) and its declared
next-level protocol (6 = TCP, 17 = UDP).  The transport slice is the IPv4
buffer past the declared header length, as produced by pnet's payload
accessor. -/
def demux (packet : List Nat) : Option (List Int) × Option (List Int) × Option (List Int) :=
  if 14 ≤ packet.length then
    if (ether_inner packet).1 = 0x0800 then
      if 20 ≤ (ether_inner packet).2.length then
        (some (Ipv4Header.new (ether_inner packet).2),
         if byteAt (ether_inner packet).2 9 = 6 then
           some (TcpHeader.new (ipv4_payload (ether_inner packet).2)) else none,
         if byteAt (ether_inner packet).2 9 = 17 then
           some (UdpHeader.new (ipv4_payload (ether_inner packet).2)) else none)
      else (none, none, none)
    else (none, none, none)
  else (none, none, none)

/-- Embeds `Headers::new`: one entry per configured protocol, in stack
order, taking the parsed vector when the demultiplexer produced one and the
protocol's default otherwise (`unwrap_or_else(default)`). -/
def Headers.new (packet : List Nat) (protocols : List ProtocolType) : Headers :=
  let parsed := demux packet
  ⟨protocols.map (fun proto =>
    match proto with
    | .Ipv4 => .ipv4 (parsed.1.getD Ipv4Header.default)
    | .Tcp => .tcp (parsed.2.1.getD TcpHeader.default)
    | .Udp => .udp (parsed.2.2.getD UdpHeader.default))⟩

/-- Embeds the `Nprint` flow accumulator. -/
structure Nprint where
  data : List Headers
  protocols : List ProtocolType
  nb_pkt : Nat
deriving DecidableEq, Repr

/-- Embeds `Nprint::new`. -/
def Nprint.new (packet : List Nat) (protocols : List ProtocolType) : Nprint :=
  { data := [Headers.new packet protocols], protocols := protocols, nb_pkt := 1 }

/-- Embeds `Nprint::add`. -/
def Nprint.add (np : Nprint) (packet : List Nat) : Nprint :=
  { np with data := np.data ++ [Headers.new packet np.protocols], nb_pkt := np.nb_pkt + 1 }

/-- Embeds `Nprint::count`. -/
def Nprint.count (np : Nprint) : Nat := np.nb_pkt

/-- Embeds `Nprint::print`: every stored vector, packet-major, flattened. -/
def Nprint.print (np : Nprint) : List Int :=
  np.data.flatMap (fun h => h.data.flatMap HeaderData.get_data)

/-- Embeds `Nprint::get_headers`: concatenated per-protocol field names in
stack order. -/
def Nprint.get_headers (np : Nprint) : List String :=
  np.protocols.flatMap (fun proto =>
    match proto with
    | .Ipv4 => Ipv4Header.get_headers
    | .Tcp => TcpHeader.get_headers
    | .Udp => UdpHeader.get_headers)

/-- Embeds `Nprint::anonymize`: every header of every stored packet is
anonymized in place. -/
def Nprint.anonymize (np : Nprint) : Nprint :=
  { np with data := np.data.map (fun h => ⟨h.data.map HeaderData.anonymize⟩) }

/-- The declared fixed width of each protocol's bit vector (the constant
sizes of the source's `default` vectors). -/
def ProtocolType.width : ProtocolType → Nat
  | .Ipv4 => 480
  | .Tcp => 480
  | .Udp => 64

/-- Per-packet width of a protocol stack: the sum of declared widths. -/
def stackWidth (stack : List ProtocolType) : Nat :=
  (stack.map ProtocolType.width).sum

/-- States that a flow value is produced by the public API: `Nprint::new`
followed by any number of `Nprint::add` calls. -/
inductive Nprint.Reachable : Nprint → Prop
  | new (packet : List Nat) (protocols : List ProtocolType) :
      Nprint.Reachable (Nprint.new packet protocols)
  | add (np : Nprint) (packet : List Nat) :
      Nprint.Reachable np → Nprint.Reachable (np.add packet)

/-- The stored header selected by packet index `p` and stack position `j`,
used to state anonymization effects positionally. -/
def Nprint.stored (np : Nprint) (p j : Nat) : HeaderData :=
  (np.data.getD p ⟨[]⟩).data.getD j (.udp [])

/-! ### Helper lemmas -/

/-- Unpacking a byte list yields eight bits per byte. -/
theorem length_unpack (o : List Nat) :
    (o.flatMap (fun b => (List.range 8).reverse.map (fun i => bit b i))).length
      = 8 * o.length := by
  induction o with
  | nil => simp
  | cons b o ih =>
      simp only [List.flatMap_cons, List.length_append, ih, List.length_map,
        List.length_reverse, List.length_range, List.length_cons]
      ring

/-- Length of `get_options_bits`: the padding loop only ever extends, so the
result has `8 * n` values when the input overflows 40 bytes and 320
otherwise. -/
theorem get_options_bits_length (o : List Nat) :
    (get_options_bits o).length = max (8 * o.length) 320 := by
  simp only [get_options_bits, List.length_append, length_unpack,
    List.length_replicate]
  omega

theorem ipv4_options_raw_length (p : List Nat) :
    (ipv4_options_raw p).length ≤ 40 := by
  have h16 : byteAt p 0 % 16 < 16 := Nat.mod_lt _ (by norm_num)
  simp only [ipv4_options_raw, List.length_take, List.length_drop]
  omega

/-- Every modelled byte is below 256. -/
theorem byteAt_lt (p : List Nat) (i : Nat) : byteAt p i < 256 :=
  Nat.mod_lt _ (by norm_num)

theorem tcp_options_raw_length (p : List Nat) :
    (tcp_options_raw p).length ≤ 40 := by
  have h : byteAt p 12 < 256 := byteAt_lt p 12
  simp only [tcp_options_raw, List.length_take, List.length_drop]
  split <;> omega

theorem ipv4_new_length (p : List Nat) : (Ipv4Header.new p).length = 480 := by
  unfold Ipv4Header.new
  split
  · have h := get_options_bits_length (ipv4_options_raw p)
    have h40 := ipv4_options_raw_length p
    simp only [List.length_append, List.length_map, List.length_reverse,
      List.length_range, h]
    omega
  · simp only [Ipv4Header.default, List.length_replicate]

theorem tcp_new_length (p : List Nat) : (TcpHeader.new p).length = 480 := by
  unfold TcpHeader.new
  split
  · have h := get_options_bits_length (tcp_options_raw p)
    have h40 := tcp_options_raw_length p
    simp only [List.length_append, List.length_map, List.length_reverse,
      List.length_range, h]
    omega
  · simp only [TcpHeader.default, List.length_replicate]

theorem udp_new_length (p : List Nat) : (UdpHeader.new p).length = 64 := by
  unfold UdpHeader.new
  split
  · simp
  · simp only [UdpHeader.default, List.length_replicate]

theorem getD_append_lt (l1 l2 : List Int) (i : Nat) (d : Int) (h : i < l1.length) :
    (l1 ++ l2).getD i d = l1.getD i d := by
  simp [List.getD_eq_getElem?_getD, List.getElem?_append_left h]

theorem getD_append_ge (l1 l2 : List Int) (i : Nat) (d : Int) (h : l1.length ≤ i) :
    (l1 ++ l2).getD i d = l2.getD (i - l1.length) d := by
  simp [List.getD_eq_getElem?_getD, List.getElem?_append_right h]

theorem getD_replicate_lt (n : Nat) (a d : Int) (i : Nat) (h : i < n) :
    (List.replicate n a).getD i d = a := by
  simp [List.getD_eq_getElem?_getD, List.getElem?_replicate, h]

/-- Position `i` of the unpacked option bytes is bit `7 - i % 8` of byte
`i / 8`, i.e. bytes are unpacked in order, MSB first. -/
theorem unpack_getD (o : List Nat) (i : Nat) (h : i < 8 * o.length) :
    (o.flatMap (fun b => (List.range 8).reverse.map (fun j => bit b j))).getD i 0
      = bit (o.getD (i / 8) 0) (7 - i % 8) := by
  induction o generalizing i with
  | nil => simp at h
  | cons b o ih =>
      rw [List.flatMap_cons]
      by_cases h8 : i < 8
      · rw [getD_append_lt _ _ _ _ (by simpa using h8)]
        have hdiv : i / 8 = 0 := by omega
        have hmod : i % 8 = i := by omega
        rw [hdiv, hmod]
        interval_cases i <;> rfl
      · rw [getD_append_ge _ _ _ _ (by simp; omega)]
        have hlen : ((List.range 8).reverse.map (fun j => bit b j)).length = 8 := by simp
        rw [hlen]
        rw [ih (i - 8) (by simp at h; omega)]
        have hdiv : i / 8 = (i - 8) / 8 + 1 := by omega
        have hmod : (i - 8) % 8 = i % 8 := by omega
        rw [hdiv, hmod, List.getD_cons_succ]

/-! ### Claim theorems -/

/-- C1: for every input byte slice, the IPv4 encoder returns exactly 480
values, the TCP encoder exactly 480, and the UDP encoder exactly 64,
regardless of validity. -/
theorem encoders_fixed_width (p : List Nat) :
    (Ipv4Header.new p).length = 480 ∧ (TcpHeader.new p).length = 480 ∧
      (UdpHeader.new p).length = 64 :=
  ⟨ipv4_new_length p, tcp_new_length p, udp_new_length p⟩

/-- C2: an input too short to contain the mandatory fixed portion of the
header (20 bytes for IPv4 and TCP, 8 for UDP) makes each constructor return
the protocol's default vector, every position `-1`, of the declared
width. -/
theorem encoders_default_on_short (p : List Nat) :
    (p.length < 20 → Ipv4Header.new p = List.replicate 480 (-1)) ∧
    (p.length < 20 → TcpHeader.new p = List.replicate 480 (-1)) ∧
    (p.length < 8 → UdpHeader.new p = List.replicate 64 (-1)) := by
  refine ⟨fun h => ?_, fun h => ?_, fun h => ?_⟩
  · simp only [Ipv4Header.new, Ipv4Header.default]
    rw [if_neg (by omega)]
  · simp only [TcpHeader.new, TcpHeader.default]
    rw [if_neg (by omega)]
  · simp only [UdpHeader.new, UdpHeader.default]
    rw [if_neg (by omega)]

/-- Witness for C2 on the repository's own 6-byte truncated test input. -/
theorem encoders_default_on_short_witness :
    ([69, 0, 0, 60, 245, 27] : List Nat).length < 20 ∧
    Ipv4Header.new [69, 0, 0, 60, 245, 27] = List.replicate 480 (-1) ∧
    TcpHeader.new [69, 0, 0, 60, 245, 27] = List.replicate 480 (-1) ∧
    UdpHeader.new [69, 0, 0, 60, 245, 27] = List.replicate 64 (-1) :=
  ⟨by decide, (encoders_default_on_short _).1 (by decide),
    (encoders_default_on_short _).2.1 (by decide),
    (encoders_default_on_short _).2.2 (by decide)⟩

set_option maxRecDepth 8000 in
/-- C3 counterexample: a 41-byte options slice makes `get_options_bits`
return 328 values, not 320 — the padding loop never truncates. -/
theorem get_options_bits_oversize :
    (get_options_bits (List.replicate 41 0)).length = 328 ∧
    ¬ (get_options_bits (List.replicate 41 0)).length = 320 := by
  constructor <;> decide

/-- C3 amended: for every raw options byte slice of at most 40 bytes the
encoder returns exactly 320 values, the first `8 * len` being the input
bytes unpacked MSB-first in byte order and the rest `-1`; for longer inputs
the encoder returns `8 * len > 320` values (no truncation), so the output
length is `max (8 * len) 320` in general. -/
theorem get_options_bits_spec (o : List Nat) (i : Nat) :
    (get_options_bits o).length = max (8 * o.length) 320 ∧
    (i < 8 * o.length →
      (get_options_bits o).getD i 0 = bit (o.getD (i / 8) 0) (7 - i % 8)) ∧
    (8 * o.length ≤ i → i < 320 → (get_options_bits o).getD i 0 = -1) := by
  refine ⟨get_options_bits_length o, fun h => ?_, fun h1 h2 => ?_⟩
  · simp only [get_options_bits]
    rw [getD_append_lt _ _ _ _ (by rw [length_unpack]; exact h)]
    exact unpack_getD o i h
  · simp only [get_options_bits]
    rw [getD_append_ge _ _ _ _ (by rw [length_unpack]; exact h1)]
    rw [length_unpack]
    exact getD_replicate_lt _ _ _ _ (by omega)

/-- Witness for C3 (amended) at a concrete two-byte input. -/
theorem get_options_bits_spec_witness :
    (get_options_bits [225, 21]).length = 320 ∧
    (get_options_bits [225, 21]).getD 8 0 = 0 ∧
    (get_options_bits [225, 21]).getD 16 0 = -1 := by
  refine ⟨?_, ?_, ?_⟩
  · have h := (get_options_bits_spec [225, 21] 0).1
    simpa using h
  · have h := (get_options_bits_spec [225, 21] 8).2.1 (by decide)
    rw [h]; decide
  · have h := (get_options_bits_spec [225, 21] 16).2.2 (by decide) (by decide)
    exact h

/-- C8: fields decode MSB first in network byte order: the UDP test header
decodes its source port `0xe115` as the first 16 bits, and every IPv4
header whose first byte is `0x45` decodes version bits `0,1,0,0` and
header-length bits `0,1,0,1`. -/
theorem msb_first_decoding :
    (UdpHeader.new [225, 21, 225, 21, 0, 52, 133, 0]).take 16
        = [1, 1, 1, 0, 0, 0, 0, 1, 0, 0, 0, 1, 0, 1, 0, 1] ∧
    ∀ rest : List Nat, 19 ≤ rest.length →
      (Ipv4Header.new (69 :: rest)).take 4 = [0, 1, 0, 0] ∧
      ((Ipv4Header.new (69 :: rest)).drop 4).take 4 = [0, 1, 0, 1] := by
  constructor
  · decide
  · intro rest h
    have h20 : 20 ≤ (69 :: rest).length := by simp; omega
    have hb0 : byteAt (69 :: rest) 0 = 69 := rfl
    constructor
    · unfold Ipv4Header.new
      rw [if_pos h20]
      simp only [hb0]
      rfl
    · unfold Ipv4Header.new
      rw [if_pos h20]
      simp only [hb0]
      rfl

/-- Witness for C8 on a concrete 20-byte IPv4 header starting `0x45`. -/
theorem msb_first_decoding_witness :
    19 ≤ (List.replicate 19 0 : List Nat).length ∧
    (Ipv4Header.new (69 :: List.replicate 19 0)).take 4 = [0, 1, 0, 0] ∧
    ((Ipv4Header.new (69 :: List.replicate 19 0)).drop 4).take 4 = [0, 1, 0, 1] :=
  ⟨by decide, (msb_first_decoding.2 _ (by decide)).1,
    (msb_first_decoding.2 _ (by decide)).2⟩

/-! ### Width of parsed vectors and of the schema -/

theorem demux_ipv4_length (p : List Nat) (v : List Int)
    (h : (demux p).1 = some v) : v.length = 480 := by
  unfold demux at h
  repeat' split at h
  all_goals injection h
  all_goals rename_i hv
  all_goals subst hv
  all_goals exact ipv4_new_length _

theorem demux_tcp_length (p : List Nat) (v : List Int)
    (h : (demux p).2.1 = some v) : v.length = 480 := by
  unfold demux at h
  repeat' split at h
  all_goals injection h
  all_goals rename_i hv
  all_goals subst hv
  all_goals exact tcp_new_length _

theorem demux_udp_length (p : List Nat) (v : List Int)
    (h : (demux p).2.2 = some v) : v.length = 64 := by
  unfold demux at h
  repeat' split at h
  all_goals injection h
  all_goals rename_i hv
  all_goals subst hv
  all_goals exact udp_new_length _

/-- Each entry of a freshly built `Headers` has the declared width of its
protocol, whether it was parsed or defaulted. -/
theorem Headers.new_widths (packet : List Nat) (stack : List ProtocolType) :
    (Headers.new packet stack).data.map (fun h => h.get_data.length)
      = stack.map ProtocolType.width := by
  unfold Headers.new
  rw [List.map_map]
  refine List.map_congr_left fun proto _ => ?_
  cases proto
  case Ipv4 =>
    simp only [Function.comp, HeaderData.get_data, ProtocolType.width]
    cases hd : (demux packet).1 with
    | none => simp only [Option.getD_none, Ipv4Header.default, List.length_replicate]
    | some v => simpa using demux_ipv4_length packet v hd
  case Tcp =>
    simp only [Function.comp, HeaderData.get_data, ProtocolType.width]
    cases hd : (demux packet).2.1 with
    | none => simp only [Option.getD_none, TcpHeader.default, List.length_replicate]
    | some v => simpa using demux_tcp_length packet v hd
  case Udp =>
    simp only [Function.comp, HeaderData.get_data, ProtocolType.width]
    cases hd : (demux packet).2.2 with
    | none => simp only [Option.getD_none, UdpHeader.default, List.length_replicate]
    | some v => simpa using demux_udp_length packet v hd

/-- The flattened vectors of one packet have the stack's total width. -/
theorem Headers.new_flat_length (packet : List Nat) (stack : List ProtocolType) :
    ((Headers.new packet stack).data.flatMap HeaderData.get_data).length
      = stackWidth stack := by
  rw [List.length_flatMap]
  have h := congrArg List.sum (Headers.new_widths packet stack)
  simpa [stackWidth, Function.comp] using h

theorem ipv4_get_headers_length : Ipv4Header.get_headers.length = 480 := by
  simp [Ipv4Header.get_headers, mkFieldNames, List.length_flatMap, Function.comp]

theorem tcp_get_headers_length : TcpHeader.get_headers.length = 480 := by
  simp [TcpHeader.get_headers, mkFieldNames, List.length_flatMap, Function.comp]

theorem udp_get_headers_length : UdpHeader.get_headers.length = 64 := by
  simp [UdpHeader.get_headers, mkFieldNames, List.length_flatMap, Function.comp]

/-- The schema of a flow has one name per bit of the per-packet width. -/
theorem nprint_get_headers_length (np : Nprint) :
    np.get_headers.length = stackWidth np.protocols := by
  unfold Nprint.get_headers
  induction np.protocols with
  | nil => simp [stackWidth]
  | cons proto t ih =>
      simp only [List.flatMap_cons, List.length_append, ih, stackWidth,
        List.map_cons, List.sum_cons]
      congr 1
      cases proto
      case Ipv4 => exact ipv4_get_headers_length
      case Tcp => exact tcp_get_headers_length
      case Udp => exact udp_get_headers_length

theorem add_protocols (np : Nprint) (packet : List Nat) :
    (np.add packet).protocols = np.protocols := rfl

/-! ### C4, C6, C10 -/

/-- Flattened length of any reachable flow: packets times per-packet
width. -/
theorem reachable_print_length (np : Nprint) (h : np.Reachable) :
    np.print.length = np.count * stackWidth np.protocols := by
  induction h with
  | new packet protocols =>
      simp only [Nprint.print, Nprint.new, Nprint.count, List.flatMap_cons,
        List.flatMap_nil, List.append_nil, one_mul]
      exact Headers.new_flat_length packet protocols
  | add np packet hr ih =>
      simp only [Nprint.print, Nprint.add, Nprint.count, List.flatMap_append,
        List.length_append, List.flatMap_cons, List.flatMap_nil,
        List.append_nil] at ih ⊢
      rw [ih, Headers.new_flat_length]
      ring

/-- C4: for every flow built with `Nprint::new` and any number of
`Nprint::add` calls, the schema length equals the sum of declared widths of
the configured stack, and the flattened output length equals the packet
count times that per-packet width. -/
theorem flow_shape (np : Nprint) (h : np.Reachable) :
    np.get_headers.length = stackWidth np.protocols ∧
    np.print.length = np.count * stackWidth np.protocols :=
  ⟨nprint_get_headers_length np, reachable_print_length np h⟩

/-- Packet of the crate's doc example: Ethernet frame carrying an IPv4
datagram with a TCP segment. -/
def docPacket : List Nat :=
  [0x0, 0x0, 0x0, 0x0, 0x0, 0x0, 0x0, 0x0, 0x0, 0x0, 0x0, 0x0, 0x08, 0x00, 0x45, 0x00,
   0x00, 0x3c, 0xf5, 0x1b, 0x40, 0x00, 0x40, 0x06, 0x1b, 0x24, 0xc0, 0xa8, 0x2b, 0x25,
   0xc6, 0x26, 0x78, 0x88, 0x97, 0xa4, 0x01, 0xbb, 0x96, 0x2e, 0x5e, 0x0b, 0x00, 0x00,
   0x00, 0x00, 0xa0, 0x02, 0x72, 0x10, 0x25, 0xd4, 0x00, 0x00, 0x02, 0x04, 0x05, 0xb4,
   0x04, 0x02, 0x08, 0x0a, 0xe3, 0xe2, 0x14, 0x23, 0x00, 0x00, 0x00, 0x00, 0x01, 0x03,
   0x03, 0x07]

/-- Witness for C4: Scenario D, `new` plus two `add` calls on the doc
packet with stack `[Ipv4, Tcp, Udp]`. -/
theorem flow_shape_witness :
    (((Nprint.new docPacket [ProtocolType.Ipv4, ProtocolType.Tcp, ProtocolType.Udp]).add
        docPacket).add docPacket).count = 3 ∧
    (((Nprint.new docPacket [ProtocolType.Ipv4, ProtocolType.Tcp, ProtocolType.Udp]).add
        docPacket).add docPacket).print.length = 3 * (480 + 480 + 64) := by
  refine ⟨rfl, ?_⟩
  have h := (flow_shape _ (Nprint.Reachable.add _ docPacket
    (Nprint.Reachable.add _ docPacket
      (Nprint.Reachable.new docPacket
        [ProtocolType.Ipv4, ProtocolType.Tcp, ProtocolType.Udp])))).2
  simpa [Nprint.count, Nprint.add, Nprint.new, stackWidth, ProtocolType.width] using h

/-- C6 counterexample: `Nprint::new` with an empty protocol stack does not
fail; it returns a usable flow with one counted packet, an empty per-packet
encoding and an empty schema — per-packet width zero. -/
theorem empty_stack_accepted :
    (Nprint.new [] []).count = 1 ∧ (Nprint.new [] []).print = [] ∧
    (Nprint.new [] []).get_headers = [] :=
  ⟨rfl, rfl, rfl⟩

/-- C6 amended: flow creation performs no validation of the protocol
stack: an empty stack is accepted at creation time and yields a flow whose
per-packet width is zero (one counted packet, empty flattened output,
empty schema). -/
theorem empty_stack_no_validation (packet : List Nat) :
    (Nprint.new packet []).count = 1 ∧ (Nprint.new packet []).print = [] ∧
    (Nprint.new packet []).get_headers = [] ∧ stackWidth [] = 0 :=
  ⟨rfl, rfl, rfl, rfl⟩

/-- C10: a stack with repeated entries is accepted and each occurrence
contributes its own full-width vector: with `[Ipv4, Ipv4]` the per-packet
width is 960, the schema has 960 names, and a second packet doubles the
flattened length. -/
theorem duplicate_stack (packet : List Nat) :
    (Nprint.new packet [ProtocolType.Ipv4, ProtocolType.Ipv4]).print.length = 960 ∧
    (Nprint.new packet [ProtocolType.Ipv4, ProtocolType.Ipv4]).get_headers.length = 960 ∧
    ((Nprint.new packet [ProtocolType.Ipv4, ProtocolType.Ipv4]).add packet).print.length
      = 1920 ∧
    (Headers.new packet [ProtocolType.Ipv4, ProtocolType.Ipv4]).data.map
      (fun h => h.get_data.length) = [480, 480] := by
  have h1 := reachable_print_length _ (Nprint.Reachable.new packet
    [ProtocolType.Ipv4, ProtocolType.Ipv4])
  have h2 := reachable_print_length _ (Nprint.Reachable.add _ packet
    (Nprint.Reachable.new packet [ProtocolType.Ipv4, ProtocolType.Ipv4]))
  have h3 := nprint_get_headers_length (Nprint.new packet [ProtocolType.Ipv4, ProtocolType.Ipv4])
  have h4 := Headers.new_widths packet [ProtocolType.Ipv4, ProtocolType.Ipv4]
  refine ⟨?_, ?_, ?_, ?_⟩
  · simpa [Nprint.count, Nprint.new, stackWidth, ProtocolType.width] using h1
  · simpa [Nprint.new, stackWidth, ProtocolType.width] using h3
  · simpa [Nprint.count, Nprint.add, Nprint.new, stackWidth, ProtocolType.width] using h2
  · simpa [ProtocolType.width] using h4

/-! ### Anonymization -/

theorem length_removeRange (d : List Int) (s e : Nat) :
    (removeRange d s e).length = d.length := by
  simp [removeRange]

theorem getD_eq_get_of_lt (l : List Int) (i : Nat) (d : Int) (h : i < l.length) :
    l.getD i d = l.get ⟨i, h⟩ := by
  rw [List.getD_eq_getElem?_getD, List.getElem?_eq_getElem h]
  rfl

/-- Value of `removeRange` at an in-bounds position: zero inside the filled
range, the original value outside. -/
theorem removeRange_getD (d : List Int) (s e i : Nat) (hi : i < d.length) :
    (removeRange d s e).getD i 0 = if s ≤ i ∧ i ≤ e then 0 else d.getD i 0 := by
  unfold removeRange
  have hlen : i < (d.mapIdx (fun i x => if s ≤ i ∧ i ≤ e then 0 else x)).length := by
    simpa using hi
  rw [getD_eq_get_of_lt _ _ _ hlen, List.get_mapIdx d _ i hi,
    getD_eq_get_of_lt d i 0 hi]

theorem anonymize_ipv4_getD (d : List Int) (i : Nat) (hi : i < d.length) :
    ((HeaderData.ipv4 d).anonymize).get_data.getD i 0
      = if 96 ≤ i ∧ i ≤ 159 then 0 else d.getD i 0 := by
  simp only [HeaderData.anonymize, HeaderData.get_data]
  rw [removeRange_getD _ _ _ _ (by rw [length_removeRange]; exact hi),
    removeRange_getD _ _ _ _ hi]
  split_ifs <;> first | rfl | omega

theorem anonymize_tcp_getD (d : List Int) (i : Nat) (hi : i < d.length) :
    ((HeaderData.tcp d).anonymize).get_data.getD i 0
      = if i ≤ 31 then 0 else d.getD i 0 := by
  simp only [HeaderData.anonymize, HeaderData.get_data]
  rw [removeRange_getD _ _ _ _ (by rw [length_removeRange]; exact hi),
    removeRange_getD _ _ _ _ hi]
  split_ifs <;> first | rfl | omega

theorem getD_map_fix {α : Type} (l : List α) (F : α → α) (p : Nat) (d : α)
    (hd : F d = d) : (l.map F).getD p d = F (l.getD p d) := by
  rw [List.getD_eq_getElem?_getD, List.getD_eq_getElem?_getD, List.getElem?_map]
  cases hl : l[p]? with
  | none => simpa using hd.symm
  | some x => rfl

/-- Anonymizing a flow anonymizes each stored header pointwise. -/
theorem stored_anonymize (np : Nprint) (p j : Nat) :
    (np.anonymize).stored p j = HeaderData.anonymize (np.stored p j) := by
  unfold Nprint.stored Nprint.anonymize
  rw [getD_map_fix np.data (fun h => ⟨h.data.map HeaderData.anonymize⟩) p ⟨[]⟩ rfl]
  exact getD_map_fix _ HeaderData.anonymize j (.udp []) rfl

/-- C5: `anonymize` sets exactly positions 96-159 of each stored IPv4
vector and positions 0-31 of each stored TCP vector to zero, leaves every
other position of those vectors unchanged, and leaves every stored UDP
vector entirely unchanged. -/
theorem anonymize_exact_ranges (np : Nprint) (p j i : Nat) :
    (∀ d, np.stored p j = HeaderData.ipv4 d → i < d.length →
      ((np.anonymize).stored p j).get_data.getD i 0
        = if 96 ≤ i ∧ i ≤ 159 then 0 else d.getD i 0) ∧
    (∀ d, np.stored p j = HeaderData.tcp d → i < d.length →
      ((np.anonymize).stored p j).get_data.getD i 0
        = if i ≤ 31 then 0 else d.getD i 0) ∧
    (∀ d, np.stored p j = HeaderData.udp d →
      (np.anonymize).stored p j = HeaderData.udp d) := by
  refine ⟨fun d hd hi => ?_, fun d hd hi => ?_, fun d hd => ?_⟩ <;>
    rw [stored_anonymize, hd]
  · exact anonymize_ipv4_getD d i hi
  · exact anonymize_tcp_getD d i hi
  · rfl

set_option maxRecDepth 8000 in
/-- Witness for C5 on a one-packet flow whose stored vectors are the
all-sentinel defaults. -/
theorem anonymize_exact_ranges_witness :
    (((Nprint.new [] [ProtocolType.Ipv4, ProtocolType.Tcp, ProtocolType.Udp]).anonymize).stored
        0 0).get_data.getD 100 0 = 0 ∧
    (((Nprint.new [] [ProtocolType.Ipv4, ProtocolType.Tcp, ProtocolType.Udp]).anonymize).stored
        0 0).get_data.getD 50 0 = -1 ∧
    (((Nprint.new [] [ProtocolType.Ipv4, ProtocolType.Tcp, ProtocolType.Udp]).anonymize).stored
        0 1).get_data.getD 10 0 = 0 ∧
    ((Nprint.new [] [ProtocolType.Ipv4, ProtocolType.Tcp, ProtocolType.Udp]).anonymize).stored
        0 2 = HeaderData.udp (List.replicate 64 (-1)) := by
  refine ⟨?_, ?_, ?_, ?_⟩
  · have h := (anonymize_exact_ranges
      (Nprint.new [] [ProtocolType.Ipv4, ProtocolType.Tcp, ProtocolType.Udp]) 0 0 100).1
      (List.replicate 480 (-1)) rfl (by simp only [List.length_replicate]; omega)
    rw [h]
    decide
  · have h := (anonymize_exact_ranges
      (Nprint.new [] [ProtocolType.Ipv4, ProtocolType.Tcp, ProtocolType.Udp]) 0 0 50).1
      (List.replicate 480 (-1)) rfl (by simp only [List.length_replicate]; omega)
    rw [h]
    decide
  · have h := (anonymize_exact_ranges
      (Nprint.new [] [ProtocolType.Ipv4, ProtocolType.Tcp, ProtocolType.Udp]) 0 1 10).2.1
      (List.replicate 480 (-1)) rfl (by simp only [List.length_replicate]; omega)
    rw [h]
    decide
  · exact (anonymize_exact_ranges
      (Nprint.new [] [ProtocolType.Ipv4, ProtocolType.Tcp, ProtocolType.Udp]) 0 2 0).2.2
      (List.replicate 64 (-1)) rfl

theorem ext_getD (l1 l2 : List Int) (hlen : l1.length = l2.length)
    (h : ∀ i, i < l1.length → l1.getD i 0 = l2.getD i 0) : l1 = l2 := by
  apply List.ext_get hlen
  intro n h1 h2
  have hn := h n h1
  rwa [getD_eq_get_of_lt _ _ _ h1, getD_eq_get_of_lt _ _ _ h2] at hn

theorem HeaderData.anonymize_length (h : HeaderData) :
    h.anonymize.get_data.length = h.get_data.length := by
  cases h <;> simp [HeaderData.anonymize, HeaderData.get_data, length_removeRange]

theorem HeaderData.anonymize_idem (h : HeaderData) :
    h.anonymize.anonymize = h.anonymize := by
  cases h with
  | ipv4 d =>
      show HeaderData.ipv4 _ = HeaderData.ipv4 _
      congr 1
      apply ext_getD _ _ (by simp [length_removeRange])
      intro i hi
      have hlen : i < (removeRange (removeRange d 96 127) 128 159).length := by
        simpa [length_removeRange] using hi
      have hd : i < d.length := by simpa [length_removeRange] using hi
      have h1 := anonymize_ipv4_getD (removeRange (removeRange d 96 127) 128 159) i hlen
      have h2 := anonymize_ipv4_getD d i hd
      simp only [HeaderData.anonymize, HeaderData.get_data] at h1 h2
      rw [h1, h2]
      split_ifs <;> rfl
  | tcp d =>
      show HeaderData.tcp _ = HeaderData.tcp _
      congr 1
      apply ext_getD _ _ (by simp [length_removeRange])
      intro i hi
      have hlen : i < (removeRange (removeRange d 0 15) 16 31).length := by
        simpa [length_removeRange] using hi
      have hd : i < d.length := by simpa [length_removeRange] using hi
      have h1 := anonymize_tcp_getD (removeRange (removeRange d 0 15) 16 31) i hlen
      have h2 := anonymize_tcp_getD d i hd
      simp only [HeaderData.anonymize, HeaderData.get_data] at h1 h2
      rw [h1, h2]
      split_ifs <;> rfl
  | udp d => rfl

/-- C7: `anonymize` is idempotent: applying it twice to any flow stores
exactly the same data as applying it once. -/
theorem anonymize_idempotent (np : Nprint) :
    np.anonymize.anonymize = np.anonymize := by
  unfold Nprint.anonymize
  congr 1
  rw [List.map_map]
  refine List.map_congr_left fun h _ => ?_
  show Headers.mk _ = Headers.mk _
  congr 1
  rw [List.map_map]
  exact List.map_congr_left fun hd _ => HeaderData.anonymize_idem hd

/-- C9: when a configured protocol is absent from the packet (stored
vector all `-1`, as with the empty packet here), `anonymize` still zeroes
that protocol's sensitive ranges: the defaulted IPv4 vector holds 0 at
positions 96-159 and the defaulted TCP vector holds 0 at positions 0-31,
the sentinel `-1` everywhere else — anonymized default vectors are no
longer all-sentinel. -/
theorem anonymize_defaulted_vectors (i : Nat) (hi : i < 480) :
    (((Nprint.new [] [ProtocolType.Ipv4, ProtocolType.Tcp]).anonymize).stored
        0 0).get_data.getD i 0 = (if 96 ≤ i ∧ i ≤ 159 then 0 else -1) ∧
    (((Nprint.new [] [ProtocolType.Ipv4, ProtocolType.Tcp]).anonymize).stored
        0 1).get_data.getD i 0 = (if i ≤ 31 then 0 else -1) := by
  have hlen : (480 : Nat) = (List.replicate 480 (-1 : Int)).length := by
    simp only [List.length_replicate]
  constructor
  · have hs : (Nprint.new [] [ProtocolType.Ipv4, ProtocolType.Tcp]).stored 0 0
        = HeaderData.ipv4 (List.replicate 480 (-1)) := rfl
    rw [stored_anonymize, hs, anonymize_ipv4_getD _ _ (hlen ▸ hi),
      getD_replicate_lt _ _ _ _ hi]
  · have hs : (Nprint.new [] [ProtocolType.Ipv4, ProtocolType.Tcp]).stored 0 1
        = HeaderData.tcp (List.replicate 480 (-1)) := rfl
    rw [stored_anonymize, hs, anonymize_tcp_getD _ _ (hlen ▸ hi),
      getD_replicate_lt _ _ _ _ hi]

/-- Witness for C9 inside and outside the anonymized ranges. -/
theorem anonymize_defaulted_vectors_witness :
    (((Nprint.new [] [ProtocolType.Ipv4, ProtocolType.Tcp]).anonymize).stored
        0 0).get_data.getD 100 0 = 0 ∧
    (((Nprint.new [] [ProtocolType.Ipv4, ProtocolType.Tcp]).anonymize).stored
        0 0).get_data.getD 200 0 = -1 ∧
    (((Nprint.new [] [ProtocolType.Ipv4, ProtocolType.Tcp]).anonymize).stored
        0 1).get_data.getD 31 0 = 0 ∧
    (((Nprint.new [] [ProtocolType.Ipv4, ProtocolType.Tcp]).anonymize).stored
        0 1).get_data.getD 32 0 = -1 := by
  refine ⟨?_, ?_, ?_, ?_⟩
  · rw [(anonymize_defaulted_vectors 100 (by omega)).1]
    decide
  · rw [(anonymize_defaulted_vectors 200 (by omega)).1]
    decide
  · rw [(anonymize_defaulted_vectors 31 (by omega)).2]
    decide
  · rw [(anonymize_defaulted_vectors 32 (by omega)).2]
    decide

end NprintRs
